import Mathlib

/-!
Shallow embedding of the Orbital display server core
(`src/crates/orbital/main.rs`) and proofs about the claims of its
specification.  Machine integers of the source (`i32`, `i64`, `u8`,
`usize`) are modelled as `Int`/`Nat`; the explicit casts of the source
(`as u8`, `as i32`, `as usize`) are modelled by the wrap functions below.
-/

/-- Rust `as u8` on a signed integer: the low 8 bits. -/
def u8cast (n : Int) : Int := n.emod 256

/-- Rust `as i32` on `i64`: wrap into the signed 32-bit range. -/
def i32cast (n : Int) : Int := (n + 2 ^ 31).emod (2 ^ 32) - 2 ^ 31

/-- Wrapping of `isize` (64-bit) arithmetic into the signed 64-bit range. -/
def i64wrap (n : Int) : Int := (n + 2 ^ 63).emod (2 ^ 64) - 2 ^ 63

/-- Rust `as usize` on `isize`: reinterpret the 64-bit pattern as unsigned. -/
def usizeCast (n : Int) : Nat := (n.emod (2 ^ 64)).toNat

/-- `Rect` from main.rs lines 36-42: an integer rectangle. -/
@[ext]
structure Rect where
  x : Int
  y : Int
  w : Int
  h : Int
  deriving Repr, DecidableEq

/-- `Rect::new` (main.rs lines 45-52). -/
def Rect.new (x y w h : Int) : Rect := ⟨x, y, w, h⟩

/-- `Rect::area` (main.rs lines 54-56). -/
def Rect.area (s : Rect) : Int := s.w * s.h

/-- `Rect::container` (main.rs lines 58-68): the bounding union. -/
def Rect.container (s o : Rect) : Rect :=
  let x := min s.x o.x
  let y := min s.y o.y
  { x := x, y := y,
    w := max (s.x + s.w) (o.x + o.w) - x,
    h := max (s.y + s.h) (o.y + o.h) - y }

/-- `Rect::contains` (main.rs lines 70-75). -/
def Rect.contains (s o : Rect) : Bool :=
  decide (s.x ≤ o.x ∧ s.x + s.w ≥ o.x + o.w ∧ s.y ≤ o.y ∧ s.y + s.h ≥ o.y + o.h)

/-- `Rect::is_empty` (main.rs lines 77-79). -/
def Rect.isEmpty (s : Rect) : Bool := decide (s.w = 0 ∨ s.h = 0)

/-- `Rect::intersects` (main.rs lines 81-87). -/
def Rect.intersects (s o : Rect) : Bool :=
  decide (min (s.x + s.w) (o.x + o.w) > max s.x o.x ∧
          min (s.y + s.h) (o.y + o.h) > max s.y o.y)

/-- `Rect::intersection` (main.rs lines 89-99). -/
def Rect.intersection (s o : Rect) : Rect :=
  let x := max s.x o.x
  let y := max s.y o.y
  { x := x, y := y,
    w := min (s.x + s.w) (o.x + o.w) - x,
    h := min (s.y + s.h) (o.y + o.h) - y }

/-- Inner loop of `schedule` (main.rs lines 107-123): walk the damage list;
`some` is a break with the list rewritten, `none` means no entry absorbed
the request. -/
def scheduleGo (request : Rect) : List Rect → Option (List Rect)
  | [] => none
  | r :: rs =>
    if r.contains request then
      some (r :: rs)
    else
      let container := r.container request
      if container.area < r.area + request.area then
        some (container :: rs)
      else
        (scheduleGo request rs).map (fun l => r :: l)

/-- `schedule` (main.rs lines 102-128): merge a redraw request into the
damage list, appending it when no existing entry absorbed it. -/
def schedule (redraws : List Rect) (x y w h : Int) : List Rect :=
  let request := Rect.new x y w h
  match scheduleGo request redraws with
  | some l => l
  | none => redraws ++ [request]

/-- Modelled from the spec: the input-event record of
`kernel/common/event.rs` (not under src/): a kind tag plus three `i64`
fields. -/
structure Event where
  code : Int
  a : Int
  b : Int
  c : Int
  deriving Repr, DecidableEq

/-- Modelled from the spec: the `EVENT_MOUSE` kind tag of event.rs. -/
def EVENT_MOUSE : Int := 1

/-- Modelled from the spec: the `EVENT_KEY` kind tag of event.rs. -/
def EVENT_KEY : Int := 2

/-- Modelled from the spec: the quit-notification kind tag of event.rs. -/
def EVENT_QUIT : Int := 3

/-- Modelled from the spec: the `K_F1` scancode (`u8` value) of event.rs,
the designated show-process-list hotkey. -/
def K_F1 : Int := 59

/-- Modelled from the spec: `QuitEvent.to_event()` of event.rs. -/
def quitEvent : Event := { code := EVENT_QUIT, a := 0, b := 0, c := 0 }

/-- Modelled from the spec: the byte size of one fixed-size event record
(four 64-bit fields). -/
def eventSize : Nat := 32

/-- Modelled from the spec: `Window` of window.rs (not under src/):
geometry (position `x`,`y`; size `w`,`h` derived from its pixel buffer),
a title, and the pending-input queue of events awaiting the client's next
read.  Pixel contents are out of scope. -/
structure Window where
  x : Int
  y : Int
  w : Int
  h : Int
  title : String
  events : List Event
  deriving Repr, DecidableEq

/-- Modelled from the spec: `Window::new` with an empty pending-input
queue. -/
def Window.new (x y w h : Int) (title : String) : Window :=
  { x := x, y := y, w := w, h := h, title := title, events := [] }

/-- Modelled from the spec: `Window::event` appends one event to the
pending-input queue. -/
def Window.event (win : Window) (e : Event) : Window :=
  { win with events := win.events ++ [e] }

/-- Modelled from the spec: `Window::read` drains queued pending-input
events into a buffer of `bufLen` bytes, returning the bytes written
(zero when the queue is empty). -/
def Window.read (win : Window) (bufLen : Nat) : Window × Nat :=
  let k := min (bufLen / eventSize) win.events.length
  ({ win with events := win.events.drop k }, k * eventSize)

/-- Modelled from the spec: `Window::write` accepts new pixel content
(out of scope here) and reports the bytes consumed. -/
def Window.write (win : Window) (bufLen : Nat) : Window × Nat :=
  (win, bufLen)

/-- Modelled from the spec: `Window::path` serializes the window's
identifying path into a buffer of `bufLen` bytes. -/
def Window.path (win : Window) (bufLen : Nat) : Nat :=
  min bufLen win.title.length

/-- Modelled from the spec: content-area hit test of window.rs. -/
def Window.containsPt (win : Window) (px py : Int) : Bool :=
  decide (win.x ≤ px ∧ px < win.x + win.w ∧ win.y ≤ py ∧ py < win.y + win.h)

/-- Modelled from the spec: title-bar hit test of window.rs — the bar is
18 logical pixels tall, directly above the content area. -/
def Window.titleContains (win : Window) (px py : Int) : Bool :=
  decide (win.x ≤ px ∧ px < win.x + win.w ∧ win.y - 18 ≤ py ∧ py < win.y)

/-- Modelled from the spec: close-control hit test of window.rs — the
rightmost 18 pixels of the title bar. -/
def Window.exitContains (win : Window) (px py : Int) : Bool :=
  decide (win.x + win.w - 18 ≤ px ∧ px < win.x + win.w ∧
          win.y - 18 ≤ py ∧ py < win.y)

/-- The window registry mapping (`BTreeMap<usize, Window>`) modelled as an
association list with unique keys: lookup (`BTreeMap::get`). -/
def wlookup : List (Nat × Window) → Nat → Option Window
  | [], _ => none
  | (k, w) :: rest, id => if k = id then some w else wlookup rest id

/-- The key set of the registry mapping. -/
def wkeys (m : List (Nat × Window)) : List Nat := m.map Prod.fst

/-- `BTreeMap::get_mut` followed by an in-place mutation: rewrite the
entry at a key, identity when the key is absent. -/
def wmodify : List (Nat × Window) → Nat → (Window → Window) → List (Nat × Window)
  | [], _, _ => []
  | (k, w) :: rest, id, f =>
    if k = id then (k, f w) :: rest else (k, w) :: wmodify rest id f

/-- `BTreeMap::insert`: replace the value at an existing key, otherwise
add a fresh entry. -/
def winsert : List (Nat × Window) → Nat → Window → List (Nat × Window)
  | [], id, w => [(id, w)]
  | (k, w0) :: rest, id, w =>
    if k = id then (id, w) :: rest else (k, w0) :: winsert rest id w

/-- `BTreeMap::remove`: drop the entry at a key. -/
def wremove (m : List (Nat × Window)) (id : Nat) : List (Nat × Window) :=
  m.filter (fun p => p.1 ≠ id)

/-- Modelled from the spec: the fixed-shape request record
`system::scheme::Packet` (system crate, not under src/): target id,
operation code / result field `a`, and arguments. -/
structure Packet where
  id : Nat
  a : Nat
  b : Nat
  c : Nat
  d : Nat
  deriving Repr, DecidableEq

/-- Modelled from the spec: the `SYS_READ` operation code of the system
crate's syscall numbering. -/
def SYS_READ : Nat := 3

/-- Modelled from the spec: the `EBADF` ("bad file descriptor") error
number of the system crate. -/
def EBADF : Nat := 9

/-- `OrbitalScheme` (main.rs lines 130-147).  The three images are kept
only as their dimensions (`image` gives the screen size; the background
pixels and the `start` instant play no role in any claim); all other
fields follow the source. -/
structure OrbitalScheme where
  screenW : Int
  screenH : Int
  cursorW : Int
  cursorH : Int
  cursorX : Int
  cursorY : Int
  dragging : Bool
  dragX : Int
  dragY : Int
  nextId : Int
  nextX : Int
  nextY : Int
  order : List Nat
  windows : List (Nat × Window)
  redraws : List Rect
  todo : List Packet
  deriving Repr, DecidableEq

/-- Modelled from the spec: the cursor image is loaded from an external
bmp file; only its dimensions matter here. -/
def cursorImgW : Int := 16

/-- Modelled from the spec: height of the external cursor bmp. -/
def cursorImgH : Int := 16

/-- `OrbitalScheme::new` (main.rs lines 150-169): fresh server state with
the whole screen scheduled for redraw. -/
def OrbitalScheme.new (width height : Int) : OrbitalScheme :=
  { screenW := width, screenH := height,
    cursorW := cursorImgW, cursorH := cursorImgH,
    cursorX := 0, cursorY := 0,
    dragging := false, dragX := 0, dragY := 0,
    nextId := 1, nextX := 20, nextY := 20,
    order := [], windows := [],
    redraws := [Rect.new 0 0 width height],
    todo := [] }

/-- Rust `str::split('/')`: cut a character list at every slash, keeping
empty segments. -/
def splitSlashAux : List Char → List Char → List String
  | [], acc => [String.mk acc.reverse]
  | ch :: rest, acc =>
    if ch = '/' then String.mk acc.reverse :: splitSlashAux rest []
    else splitSlashAux rest (ch :: acc)

/-- Rust `path.split("/")` as used by `open`. -/
def splitSlash (s : String) : List String := splitSlashAux s.toList []

/-- Rust `str::parse::<i32>()`: optional sign, at least one digit, value
within the 32-bit signed range; `none` on any failure. -/
def parseI32 (s : String) : Option Int :=
  match s.toList with
  | [] => none
  | chars@(ch :: rest) =>
    let signed : Bool × List Char :=
      if ch = '-' then (true, rest)
      else if ch = '+' then (false, rest) else (false, chars)
    match signed with
    | (neg, ds) =>
      if ds.isEmpty then none
      else if ds.all Char.isDigit then
        let n : Nat := ds.foldl (fun acc d => acc * 10 + (d.toNat - 48)) 0
        let v : Int := if neg then -(n : Int) else (n : Int)
        if -(2 ^ 31) ≤ v ∧ v ≤ 2 ^ 31 - 1 then some v else none
      else none

/-- `parse::<i32>().unwrap_or(0)` as used by `open`. -/
def parseI32or0 (s : String) : Int := (parseI32 s).getD 0

/-- The path parsing of `open` (main.rs lines 295-306): skip the leading
empty segment, parse x, y, width, height (defaulting to 0), rejoin the
rest with slashes as the title. -/
def openParse (path : String) : Int × Int × Int × Int × String :=
  let parts := (splitSlash path).drop 1
  let x := parseI32or0 (parts.getD 0 "")
  let y := parseI32or0 (parts.getD 1 "")
  let width := parseI32or0 (parts.getD 2 "")
  let height := parseI32or0 (parts.getD 3 "")
  let title :=
    match parts.drop 4 with
    | [] => ""
    | t :: more => more.foldl (fun acc p => acc ++ "/" ++ p) t
  (x, y, width, height, title)

/-- `OrbitalScheme::open` (main.rs lines 294-333): parse the path,
allocate the next id (wrapping the `isize` counter past zero), auto-place
when both parsed coordinates are negative (advancing both cascade
counters, each resetting to 20 on its own screen bound), register the
window at the front of the z-order and schedule its damage. -/
def OrbitalScheme.open (s : OrbitalScheme) (path : String) (_flags _mode : Nat) :
    OrbitalScheme × Except Nat Nat :=
  match openParse path with
  | (x0, y0, width, height, title) =>
    let id := usizeCast s.nextId
    let nid1 := i64wrap (s.nextId + 1)
    let nid2 := if nid1 < 0 then 1 else nid1
    let auto := x0 < 0 ∧ y0 < 0
    let x := if auto then s.nextX else x0
    let y := if auto then s.nextY else y0
    let nx :=
      if auto then
        let t := s.nextX + 20
        if t + 20 ≥ s.screenW then 20 else t
      else s.nextX
    let ny :=
      if auto then
        let t := s.nextY + 20
        if t + 20 ≥ s.screenH then 20 else t
      else s.nextY
    let s1 := { s with nextId := nid2, nextX := nx, nextY := ny,
                       order := id :: s.order,
                       windows := winsert s.windows id (Window.new x y width height title) }
    ({ s1 with redraws := schedule s1.redraws x (y - 18) width (height + 18) },
     Except.ok id)

/-- `OrbitalScheme::read` (main.rs lines 335-341): drain the window's
pending-input queue, `EBADF` when the id is unknown. -/
def OrbitalScheme.read (s : OrbitalScheme) (id : Nat) (bufLen : Nat) :
    OrbitalScheme × Except Nat Nat :=
  match wlookup s.windows id with
  | some win =>
    ({ s with windows := wmodify s.windows id (fun _ => (win.read bufLen).1) },
     Except.ok (win.read bufLen).2)
  | none => (s, Except.error EBADF)

/-- `OrbitalScheme::write` (main.rs lines 343-350): schedule the window's
current bounds (title bar included), then accept the data. -/
def OrbitalScheme.write (s : OrbitalScheme) (id : Nat) (bufLen : Nat) :
    OrbitalScheme × Except Nat Nat :=
  match wlookup s.windows id with
  | some win =>
    ({ s with redraws := schedule s.redraws win.x (win.y - 18) win.w (win.h + 18),
              windows := wmodify s.windows id (fun w0 => (w0.write bufLen).1) },
     Except.ok (win.write bufLen).2)
  | none => (s, Except.error EBADF)

/-- `OrbitalScheme::fpath` (main.rs lines 352-358): takes `&self`, so the
state is returned unchanged. -/
def OrbitalScheme.fpath (s : OrbitalScheme) (id : Nat) (bufLen : Nat) :
    OrbitalScheme × Except Nat Nat :=
  match wlookup s.windows id with
  | some win => (s, Except.ok (win.path bufLen))
  | none => (s, Except.error EBADF)

/-- `OrbitalScheme::close` (main.rs lines 360-369): retain all other ids
in the z-order, then remove the mapping entry, scheduling its last bounds;
`EBADF` when the id is unknown. -/
def OrbitalScheme.close (s : OrbitalScheme) (id : Nat) :
    OrbitalScheme × Except Nat Nat :=
  let s1 := { s with order := s.order.filter (fun e => e ≠ id) }
  match wlookup s1.windows id with
  | some win =>
    ({ s1 with windows := wremove s1.windows id,
               redraws := schedule s1.redraws win.x (win.y - 18) win.w (win.h + 18) },
     Except.ok 0)
  | none => (s1, Except.error EBADF)

/-- Cursor-move handling of `OrbitalScheme::event` (main.rs lines
225-230): when the mouse position changed, schedule damage at the old and
new cursor rectangles and update the cursor position. -/
def mouseMoveUpdate (s : OrbitalScheme) (e : Event) : OrbitalScheme :=
  if i32cast e.a ≠ s.cursorX ∨ i32cast e.b ≠ s.cursorY then
    let r1 := schedule s.redraws s.cursorX s.cursorY s.cursorW s.cursorH
    let s1 := { s with redraws := r1, cursorX := i32cast e.a, cursorY := i32cast e.b }
    { s1 with redraws := schedule s1.redraws s1.cursorX s1.cursorY s1.cursorW s1.cursorH }
  else s

/-- Drag handling of `OrbitalScheme::event` (main.rs lines 232-252):
while the button is held and the focused window exists, move it by the
cursor delta, scheduling damage at the old and new bounds; otherwise stop
dragging. -/
def dragUpdate (s : OrbitalScheme) (e : Event) : OrbitalScheme :=
  if e.c > 0 then
    match s.order.head? with
    | some id =>
      match wlookup s.windows id with
      | some win =>
        if s.dragX ≠ s.cursorX ∨ s.dragY ≠ s.cursorY then
          let r1 := schedule s.redraws win.x (win.y - 18) win.w (win.h + 18)
          let win1 := { win with x := win.x + s.cursorX - s.dragX,
                                 y := win.y + s.cursorY - s.dragY }
          let s1 := { s with redraws := r1,
                             windows := wmodify s.windows id (fun _ => win1),
                             dragX := s.cursorX, dragY := s.cursorY }
          { s1 with redraws := schedule s1.redraws win1.x (win1.y - 18) win1.w (win1.h + 18) }
        else s
      | none => { s with dragging := false }
    | none => { s with dragging := false }
  else { s with dragging := false }

/-- Focus/hit-test scan of `OrbitalScheme::event` (main.rs lines 253-282):
walk the z-order front-to-back with a running index; the first window
containing the point gets the (window-local) event and, on press, the
focus index; else the first title-bar hit gets, on press, either a quit
event (over the close control) or starts a drag.  Returns the rewritten
mapping, the drag anchor to set (if a drag starts) and the focus index. -/
def scanWindows (e : Event) (cx cy : Int) (ws : List (Nat × Window)) :
    List Nat → Nat → List (Nat × Window) × Option (Int × Int) × Nat
  | [], _ => (ws, none, 0)
  | id :: rest, i =>
    match wlookup ws id with
    | some win =>
      if win.containsPt (i32cast e.a) (i32cast e.b) then
        let we := { e with a := e.a - win.x, b := e.b - win.y }
        (wmodify ws id (fun w0 => w0.event we), none, if e.c > 0 then i else 0)
      else if win.titleContains (i32cast e.a) (i32cast e.b) then
        if e.c > 0 then
          if win.exitContains (i32cast e.a) (i32cast e.b) then
            (wmodify ws id (fun w0 => w0.event quitEvent), none, i)
          else (ws, some (cx, cy), i)
        else (ws, none, 0)
      else scanWindows e cx cy ws rest (i + 1)
    | none => scanWindows e cx cy ws rest (i + 1)

/-- Write the scan results back into the state: the rewritten mapping,
and — when a drag started — the dragging flag and anchor. -/
def applyScan (s : OrbitalScheme)
    (res : List (Nat × Window) × Option (Int × Int) × Nat) : OrbitalScheme :=
  match res.2.1 with
  | some anchor =>
    { s with windows := res.1, dragging := true,
             dragX := anchor.1, dragY := anchor.2 }
  | none => { s with windows := res.1 }

/-- `OrbitalScheme::event` (main.rs lines 214-290).  Keyboard events spawn
the process-list report on the F1 hotkey (returned as the Bool) and are
then forwarded to the focused window; mouse events update the cursor,
continue a drag, or run the hit-test scan and refocus the pressed window.
-/
def OrbitalScheme.event (s : OrbitalScheme) (e : Event) : OrbitalScheme × Bool :=
  if e.code = EVENT_KEY then
    let spawned := decide (u8cast e.b = K_F1 ∧ e.c > 0)
    match s.order.head? with
    | some id =>
      ({ s with windows := wmodify s.windows id (fun w0 => w0.event e) }, spawned)
    | none => (s, spawned)
  else if e.code = EVENT_MOUSE then
    let s1 := mouseMoveUpdate s e
    if s1.dragging then
      (dragUpdate s1 e, false)
    else
      let res := scanWindows e s1.cursorX s1.cursorY s1.windows s1.order 0
      let s2 := applyScan s1 res
      if res.2.2 > 0 then
        match s2.order.get? res.2.2 with
        | some id => ({ s2 with order := id :: s2.order.eraseIdx res.2.2 }, false)
        | none => (s2, false)
      else (s2, false)
  else (s, false)

/-- The per-batch request dispatch of `event_loop` (main.rs lines
388-398): for each packet remember whether it was a read, run the
handler, requeue reads that returned 0 into the shared todo list and
collect every other packet as a response.  The handler (the system
crate's `Scheme::handle`, which dispatches to open/read/write/fpath/
close) is passed as a function. -/
def eventLoopProcess (handle : OrbitalScheme → Packet → OrbitalScheme × Packet)
    (s : OrbitalScheme) : List Packet → OrbitalScheme × List Packet
  | [] => (s, [])
  | p :: ps =>
    let delay := p.a = SYS_READ
    let hp := handle s p
    if delay ∧ hp.2.a = 0 then
      eventLoopProcess handle { hp.1 with todo := hp.1.todo ++ [hp.2] } ps
    else
      let rest := eventLoopProcess handle hp.1 ps
      (rest.1, hp.2 :: rest.2)

/-- The per-batch request dispatch of `server_loop` (main.rs lines
417-426), textually identical to the one of `event_loop`. -/
def serverLoopProcess (handle : OrbitalScheme → Packet → OrbitalScheme × Packet)
    (s : OrbitalScheme) : List Packet → OrbitalScheme × List Packet
  | [] => (s, [])
  | p :: ps =>
    let delay := p.a = SYS_READ
    let hp := handle s p
    if delay ∧ hp.2.a = 0 then
      serverLoopProcess handle { hp.1 with todo := hp.1.todo ++ [hp.2] } ps
    else
      let rest := serverLoopProcess handle hp.1 ps
      (rest.1, hp.2 :: rest.2)

/-- The (request, handled result) pairs produced along a batch, threading
the state exactly as the two loop bodies do. -/
def handledPairs (handle : OrbitalScheme → Packet → OrbitalScheme × Packet)
    (s : OrbitalScheme) : List Packet → List (Packet × Packet)
  | [] => []
  | p :: ps =>
    let hp := handle s p
    let s2 := if p.a = SYS_READ ∧ hp.2.a = 0 then
                { hp.1 with todo := hp.1.todo ++ [hp.2] }
              else hp.1
    (p, hp.2) :: handledPairs handle s2 ps

/-- The registry invariant: the z-order and the window mapping hold
exactly the same ids, each exactly once on both sides. -/
def RegistryInv (s : OrbitalScheme) : Prop :=
  s.order.Nodup ∧ (wkeys s.windows).Nodup ∧
  (∀ id ∈ s.order, id ∈ wkeys s.windows) ∧
  (∀ id ∈ wkeys s.windows, id ∈ s.order)

instance (s : OrbitalScheme) : Decidable (RegistryInv s) := by
  unfold RegistryInv; infer_instance

theorem contains_container_eq (A B : Rect) (h : A.contains B = true) :
    A.container B = A := by
  simp only [Rect.contains, decide_eq_true_eq] at h
  ext <;> simp only [Rect.container] <;> omega

/-- Claim C10: the bounding union `container` of two rectangles contains
both of them in the sense of `Rect.contains`, and is commutative. -/
theorem container_contains_comm (A B : Rect) :
    (A.container B).contains A = true ∧ (A.container B).contains B = true ∧
    A.container B = B.container A := by
  refine ⟨?_, ?_, ?_⟩
  · simp only [Rect.contains, Rect.container, decide_eq_true_eq]
    omega
  · simp only [Rect.contains, Rect.container, decide_eq_true_eq]
    omega
  · ext <;> simp only [Rect.container] <;> omega

/-- Claim C5: when rectangle `A` fully contains rectangle `B`, scheduling
`B` on the damage list `[A]` leaves the list exactly unchanged. -/
theorem schedule_contained_ignored (A B : Rect) (h : A.contains B = true) :
    schedule [A] B.x B.y B.w B.h = [A] := by
  have hB : Rect.new B.x B.y B.w B.h = B := rfl
  simp [schedule, hB, scheduleGo, h]

theorem schedule_contained_ignored_witness :
    Rect.contains (Rect.new 0 0 10 10) (Rect.new 2 2 3 3) = true ∧
    schedule [Rect.new 0 0 10 10] 2 2 3 3 = [Rect.new 0 0 10 10] :=
  ⟨by decide, schedule_contained_ignored (Rect.new 0 0 10 10) (Rect.new 2 2 3 3) (by decide)⟩

/-- Claim C4: when the bounding union of `A` and `B` has smaller area than
the two areas summed, scheduling `B` on the damage list `[A]` replaces `A`
in place by the union, appending nothing for `B`. -/
theorem schedule_merges_into_container (A B : Rect)
    (h : (A.container B).area < A.area + B.area) :
    schedule [A] B.x B.y B.w B.h = [A.container B] := by
  have hB : Rect.new B.x B.y B.w B.h = B := rfl
  by_cases hc : A.contains B = true
  · rw [contains_container_eq A B hc]
    simp [schedule, hB, scheduleGo, hc]
  · simp [schedule, hB, scheduleGo, hc, h]

theorem schedule_merges_into_container_witness :
    (Rect.container (Rect.new 0 0 10 10) (Rect.new 2 2 10 10)).area <
      (Rect.new 0 0 10 10).area + (Rect.new 2 2 10 10).area ∧
    schedule [Rect.new 0 0 10 10] 2 2 10 10 =
      [Rect.container (Rect.new 0 0 10 10) (Rect.new 2 2 10 10)] :=
  ⟨by decide, schedule_merges_into_container (Rect.new 0 0 10 10) (Rect.new 2 2 10 10) (by decide)⟩

theorem wlookup_winsert_self (m : List (Nat × Window)) (id : Nat) (w : Window) :
    wlookup (winsert m id w) id = some w := by
  induction m with
  | nil => simp [winsert, wlookup]
  | cons p rest ih =>
    obtain ⟨k, w0⟩ := p
    by_cases hk : k = id <;> simp [winsert, wlookup, hk, ih]

/-- Claim C1 counterexample: on a fresh 800x600 server the second
auto-placed open is assigned position (40,40), not (40,20) as claimed —
the y-counter advances on every auto-placed open too. -/
theorem second_auto_open_position_ce :
    (wlookup (((OrbitalScheme.new 800 600).open "/-1/-1/10/10/a" 0 0).1.open
        "/-1/-1/10/10/b" 0 0).1.windows 2).map (fun win => (win.x, win.y)) =
      some ((40 : Int), (40 : Int)) ∧
    (wlookup (((OrbitalScheme.new 800 600).open "/-1/-1/10/10/a" 0 0).1.open
        "/-1/-1/10/10/b" 0 0).1.windows 2).map (fun win => (win.x, win.y)) ≠
      some ((40 : Int), (20 : Int)) := by
  constructor
  · decide
  · decide

/-- Claim C1 (amended): an open whose parsed x and y are both negative is
auto-placed at the current counters (so (20,20) first, then (40,40)):
both counters advance by 20 per auto-placed call, the x-counter resetting
to 20 once it would exceed the screen width and the y-counter resetting
to 20 once it would exceed the screen height, independently of each
other. -/
theorem open_auto_cascade (s : OrbitalScheme) (path : String) (fl md : Nat)
    (hx : (openParse path).1 < 0) (hy : (openParse path).2.1 < 0) :
    wlookup (s.open path fl md).1.windows (usizeCast s.nextId) =
      some (Window.new s.nextX s.nextY (openParse path).2.2.1
        (openParse path).2.2.2.1 (openParse path).2.2.2.2) ∧
    (s.open path fl md).1.nextX =
      (if s.nextX + 20 + 20 ≥ s.screenW then 20 else s.nextX + 20) ∧
    (s.open path fl md).1.nextY =
      (if s.nextY + 20 + 20 ≥ s.screenH then 20 else s.nextY + 20) ∧
    (s.open path fl md).2 = Except.ok (usizeCast s.nextId) := by
  rcases hP : openParse path with ⟨x0, y0, width, height, title⟩
  rw [hP] at hx hy
  simp only [Prod.fst, Prod.snd] at hx hy
  have hauto : x0 < 0 ∧ y0 < 0 := ⟨hx, hy⟩
  simp [OrbitalScheme.open, hP, hauto, wlookup_winsert_self]

theorem open_auto_cascade_witness :
    wlookup ((OrbitalScheme.new 800 600).open "/-1/-1/10/10/a" 0 0).1.windows 1 =
      some (Window.new 20 20 10 10 "a") ∧
    wlookup (((OrbitalScheme.new 800 600).open "/-1/-1/10/10/a" 0 0).1.open
        "/-1/-1/10/10/b" 0 0).1.windows 2 =
      some (Window.new 40 40 10 10 "b") := by
  constructor
  · exact (open_auto_cascade (OrbitalScheme.new 800 600) "/-1/-1/10/10/a" 0 0
      (by decide) (by decide)).1
  · exact (open_auto_cascade ((OrbitalScheme.new 800 600).open "/-1/-1/10/10/a" 0 0).1
      "/-1/-1/10/10/b" 0 0 (by decide) (by decide)).1

/-- Claim C3 counterexample: an open with non-negative parsed coordinates
on a fresh 800x600 server leaves both cascade counters at 20 — they do
not advance on such a call. -/
theorem nonauto_open_counters_ce :
    (OrbitalScheme.new 800 600).nextX = 20 ∧
    (OrbitalScheme.new 800 600).nextY = 20 ∧
    ((OrbitalScheme.new 800 600).open "/5/5/10/10/t" 0 0).1.nextX = 20 ∧
    ((OrbitalScheme.new 800 600).open "/5/5/10/10/t" 0 0).1.nextY = 20 := by
  refine ⟨rfl, rfl, by decide, by decide⟩

/-- Claim C3 (amended): the cascade counters advance only on opens whose
parsed x and y are both negative; an open with a non-negative parsed
coordinate leaves both counters unchanged. -/
theorem cascade_counters_auto_only (s : OrbitalScheme) (path : String) (fl md : Nat)
    (h : 0 ≤ (openParse path).1 ∨ 0 ≤ (openParse path).2.1) :
    (s.open path fl md).1.nextX = s.nextX ∧
    (s.open path fl md).1.nextY = s.nextY := by
  rcases hP : openParse path with ⟨x0, y0, width, height, title⟩
  rw [hP] at h
  simp only [Prod.fst, Prod.snd] at h
  have hna : ¬(x0 < 0 ∧ y0 < 0) := by omega
  simp [OrbitalScheme.open, hP, hna]

theorem cascade_counters_auto_only_witness :
    ((OrbitalScheme.new 800 600).open "/5/5/10/10/t" 0 0).1.nextX =
      (OrbitalScheme.new 800 600).nextX ∧
    ((OrbitalScheme.new 800 600).open "/5/5/10/10/t" 0 0).1.nextY =
      (OrbitalScheme.new 800 600).nextY :=
  cascade_counters_auto_only (OrbitalScheme.new 800 600) "/5/5/10/10/t" 0 0
    (Or.inl (by decide))

/-- Claim C2 counterexample: the F1-pressed hotkey event both triggers the
process-list spawn (the Bool) and is still forwarded into the focused
window's pending-input queue — it is not withheld from the queue as
claimed. -/
theorem hotkey_event_forwarded_ce :
    (let s : OrbitalScheme :=
      { OrbitalScheme.new 800 600 with
          order := [1], windows := [(1, Window.new 0 0 100 100 "A")] }
     let e : Event := { code := EVENT_KEY, a := 0, b := 59, c := 1 }
     ((s.event e).2, (wlookup (s.event e).1.windows 1).map Window.events)) =
    (true, some [{ code := EVENT_KEY, a := 0, b := 59, c := 1 }]) := by
  decide

/-- Claim C2 (amended): a keyboard event that is the show-process-list
hotkey with a pressed modifier triggers the diagnostic spawn and is
additionally forwarded, like every other keyboard event, unchanged to the
focused (z-order index 0) window's pending-input queue when a window
exists; with no window the event is dropped, and only the hotkey triggers
the spawn. -/
theorem key_event_routing (s : OrbitalScheme) (e : Event) (h : e.code = EVENT_KEY) :
    (s.event e).2 = decide (u8cast e.b = K_F1 ∧ e.c > 0) ∧
    (s.event e).1.order = s.order ∧
    (s.event e).1.windows =
      (match s.order.head? with
       | some id => wmodify s.windows id (fun w0 => w0.event e)
       | none => s.windows) := by
  cases hd : s.order.head? <;>
    simp [OrbitalScheme.event, h, hd]

theorem key_event_routing_witness :
    (let s : OrbitalScheme :=
      { OrbitalScheme.new 800 600 with
          order := [1], windows := [(1, Window.new 0 0 100 100 "A")] }
     let e : Event := { code := EVENT_KEY, a := 0, b := 5, c := 1 }
     (s.event e).1.windows = wmodify s.windows 1 (fun w0 => w0.event e)) := by
  have h := key_event_routing
    { OrbitalScheme.new 800 600 with
        order := [1], windows := [(1, Window.new 0 0 100 100 "A")] }
    { code := EVENT_KEY, a := 0, b := 5, c := 1 } rfl
  exact h.2.2

theorem wlookup_none_not_mem (m : List (Nat × Window)) (id : Nat)
    (h : wlookup m id = none) : id ∉ wkeys m := by
  induction m with
  | nil => simp [wkeys]
  | cons p rest ih =>
    obtain ⟨k, w0⟩ := p
    by_cases hk : k = id
    · simp [wlookup, hk] at h
    · simp only [wlookup, hk, if_neg, if_false] at h
      simp [wkeys] at ih ⊢
      exact ⟨fun he => hk he.symm, ih h⟩

/-- Claim C7: for a state satisfying the registry invariant, `close` on an
id absent from the window mapping returns the EBADF error and leaves both
the damage list and the z-order exactly unchanged. -/
theorem close_unknown_id_noop (s : OrbitalScheme) (id : Nat)
    (hInv : RegistryInv s) (h : wlookup s.windows id = none) :
    (s.close id).2 = Except.error EBADF ∧
    (s.close id).1.redraws = s.redraws ∧
    (s.close id).1.order = s.order := by
  have hnk : id ∉ wkeys s.windows := wlookup_none_not_mem s.windows id h
  have hno : id ∉ s.order := fun hmem => hnk (hInv.2.2.1 id hmem)
  have hall : ∀ a ∈ s.order, ¬a = id := by
    intro a ha hai
    exact hno (hai ▸ ha)
  simp [OrbitalScheme.close, h]
  exact hall

theorem close_unknown_id_noop_witness :
    ((OrbitalScheme.new 800 600).close 5).2 = Except.error EBADF ∧
    ((OrbitalScheme.new 800 600).close 5).1.order = (OrbitalScheme.new 800 600).order := by
  have h := close_unknown_id_noop (OrbitalScheme.new 800 600) 5 (by decide) (by decide)
  exact ⟨h.1, h.2.2⟩

theorem eventLoopProcess_partition
    (handle : OrbitalScheme → Packet → OrbitalScheme × Packet)
    (htodo : ∀ t p, ((handle t p).1).todo = t.todo) :
    ∀ (ps : List Packet) (s : OrbitalScheme),
      (eventLoopProcess handle s ps).1.todo =
        s.todo ++ ((handledPairs handle s ps).filter
          (fun q => decide (q.1.a = SYS_READ ∧ q.2.a = 0))).map Prod.snd ∧
      (eventLoopProcess handle s ps).2 =
        ((handledPairs handle s ps).filter
          (fun q => !decide (q.1.a = SYS_READ ∧ q.2.a = 0))).map Prod.snd := by
  intro ps
  induction ps with
  | nil => intro s; simp [eventLoopProcess, handledPairs]
  | cons p ps ih =>
    intro s
    by_cases hd : p.a = SYS_READ ∧ (handle s p).2.a = 0
    · constructor
      · simp only [eventLoopProcess, handledPairs, if_pos hd]
        rw [(ih _).1]
        simp [hd, htodo]
      · simp only [eventLoopProcess, handledPairs, if_pos hd]
        rw [(ih _).2]
        simp [hd]
    · constructor
      · simp only [eventLoopProcess, handledPairs, if_neg hd]
        rw [(ih _).1]
        simp [hd, htodo]
      · simp only [eventLoopProcess, handledPairs, if_neg hd]
        rw [(ih _).2]
        have hb : decide (p.a = SYS_READ ∧ (handle s p).2.a = 0) = false :=
          decide_eq_false hd
        simp only [List.filter_cons, hb, Bool.not_false, if_pos, List.map_cons]

theorem serverLoopProcess_eq (handle : OrbitalScheme → Packet → OrbitalScheme × Packet) :
    ∀ (ps : List Packet) (s : OrbitalScheme),
      serverLoopProcess handle s ps = eventLoopProcess handle s ps := by
  intro ps
  induction ps with
  | nil => intro s; rfl
  | cons p ps ih =>
    intro s
    simp only [serverLoopProcess, eventLoopProcess]
    by_cases hd : p.a = SYS_READ ∧ (handle s p).2.a = 0
    · rw [if_pos hd, if_pos hd, ih]
    · rw [if_neg hd, if_neg hd, ih]

/-- Claim C6: in either polling loop's per-batch dispatch, a request whose
operation code was SYS_READ and whose handled result is 0 is requeued into
the shared todo list (in batch order) instead of being answered; every
other handled request — non-zero result or non-read — lands in the
outgoing response batch, again in order.  `handle` is the system crate's
dispatcher, assumed only not to touch the todo list itself. -/
theorem read_zero_deferred_partition
    (handle : OrbitalScheme → Packet → OrbitalScheme × Packet)
    (s : OrbitalScheme) (ps : List Packet)
    (htodo : ∀ t p, ((handle t p).1).todo = t.todo) :
    (eventLoopProcess handle s ps).1.todo =
      s.todo ++ ((handledPairs handle s ps).filter
        (fun q => decide (q.1.a = SYS_READ ∧ q.2.a = 0))).map Prod.snd ∧
    (eventLoopProcess handle s ps).2 =
      ((handledPairs handle s ps).filter
        (fun q => !decide (q.1.a = SYS_READ ∧ q.2.a = 0))).map Prod.snd ∧
    (serverLoopProcess handle s ps).1.todo =
      s.todo ++ ((handledPairs handle s ps).filter
        (fun q => decide (q.1.a = SYS_READ ∧ q.2.a = 0))).map Prod.snd ∧
    (serverLoopProcess handle s ps).2 =
      ((handledPairs handle s ps).filter
        (fun q => !decide (q.1.a = SYS_READ ∧ q.2.a = 0))).map Prod.snd := by
  have he := eventLoopProcess_partition handle htodo ps s
  have hs := serverLoopProcess_eq handle ps s
  exact ⟨he.1, he.2, by rw [hs]; exact he.1, by rw [hs]; exact he.2⟩

theorem read_zero_deferred_partition_witness :
    (eventLoopProcess (fun t p => (t, { p with a := p.b }))
      (OrbitalScheme.new 800 600)
      [⟨7, SYS_READ, 0, 0, 0⟩, ⟨8, SYS_READ, 5, 0, 0⟩, ⟨9, 1, 0, 0, 0⟩]).1.todo =
      [⟨7, 0, 0, 0, 0⟩] ∧
    (eventLoopProcess (fun t p => (t, { p with a := p.b }))
      (OrbitalScheme.new 800 600)
      [⟨7, SYS_READ, 0, 0, 0⟩, ⟨8, SYS_READ, 5, 0, 0⟩, ⟨9, 1, 0, 0, 0⟩]).2 =
      [⟨8, 5, 5, 0, 0⟩, ⟨9, 0, 0, 0, 0⟩] := by
  have h := read_zero_deferred_partition (fun t p => (t, { p with a := p.b }))
    (OrbitalScheme.new 800 600)
    [⟨7, SYS_READ, 0, 0, 0⟩, ⟨8, SYS_READ, 5, 0, 0⟩, ⟨9, 1, 0, 0, 0⟩]
    (fun t p => rfl)
  exact ⟨h.1.trans (by decide), h.2.1.trans (by decide)⟩

theorem wkeys_wmodify (m : List (Nat × Window)) (id : Nat) (f : Window → Window) :
    wkeys (wmodify m id f) = wkeys m := by
  induction m with
  | nil => rfl
  | cons p rest ih =>
    obtain ⟨k, w0⟩ := p
    by_cases hk : k = id
    · simp [wmodify, hk, wkeys]
    · simp only [wmodify, if_neg hk, wkeys, List.map_cons]
      rw [show (wmodify rest id f).map Prod.fst = wkeys (wmodify rest id f) from rfl, ih]
      rfl

theorem wkeys_winsert (m : List (Nat × Window)) (id : Nat) (w : Window)
    (h : id ∉ wkeys m) : wkeys (winsert m id w) = wkeys m ++ [id] := by
  induction m with
  | nil => rfl
  | cons p rest ih =>
    obtain ⟨k, w0⟩ := p
    simp only [wkeys, List.map_cons, List.mem_cons, not_or] at h
    by_cases hk : k = id
    · exact absurd hk.symm h.1
    · simp only [winsert, if_neg hk, wkeys, List.map_cons, List.cons_append]
      rw [show (winsert rest id w).map Prod.fst = wkeys (winsert rest id w) from rfl,
          ih h.2]
      rfl

theorem wkeys_wremove (m : List (Nat × Window)) (id : Nat) :
    wkeys (wremove m id) = (wkeys m).filter (fun k => k ≠ id) := by
  induction m with
  | nil => rfl
  | cons p rest ih =>
    obtain ⟨k, w0⟩ := p
    by_cases hk : k = id
    · simp [wremove, wkeys, hk, List.filter_cons] at ih ⊢
      exact ih
    · simp [wremove, wkeys, hk, List.filter_cons] at ih ⊢
      exact ih

theorem cons_eraseIdx_perm :
    ∀ (l : List Nat) (n : Nat) (x : Nat),
      l.get? n = some x → List.Perm (x :: l.eraseIdx n) l
  | [], n, x, h => by simp at h
  | a :: t, 0, x, h => by
    simp at h
    subst h
    simp [List.eraseIdx]
  | a :: t, n + 1, x, h => by
    simp only [List.get?] at h
    have ih := cons_eraseIdx_perm t n x h
    simp only [List.eraseIdx]
    exact (List.Perm.swap a x (t.eraseIdx n)).trans (List.Perm.cons a ih)

theorem RegistryInv_of_perm (s t : OrbitalScheme) (hInv : RegistryInv s)
    (ho : List.Perm t.order s.order) (hk : wkeys t.windows = wkeys s.windows) :
    RegistryInv t := by
  obtain ⟨h1, h2, h3, h4⟩ := hInv
  refine ⟨ho.nodup_iff.mpr h1, ?_, ?_, ?_⟩
  · rw [hk]; exact h2
  · intro id hid; rw [hk]; exact h3 id (ho.mem_iff.mp hid)
  · intro id hid; rw [ho.mem_iff]; exact h4 id (by rw [hk] at hid; exact hid)

theorem RegistryInv_of_eq (s t : OrbitalScheme) (hInv : RegistryInv s)
    (ho : t.order = s.order) (hk : wkeys t.windows = wkeys s.windows) :
    RegistryInv t :=
  RegistryInv_of_perm s t hInv (by rw [ho]) hk

theorem mouseMoveUpdate_order (s : OrbitalScheme) (e : Event) :
    (mouseMoveUpdate s e).order = s.order := by
  unfold mouseMoveUpdate; split <;> rfl

theorem mouseMoveUpdate_windows (s : OrbitalScheme) (e : Event) :
    (mouseMoveUpdate s e).windows = s.windows := by
  unfold mouseMoveUpdate; split <;> rfl

theorem mouseMoveUpdate_dragging (s : OrbitalScheme) (e : Event) :
    (mouseMoveUpdate s e).dragging = s.dragging := by
  unfold mouseMoveUpdate; split <;> rfl

theorem dragUpdate_order (s : OrbitalScheme) (e : Event) :
    (dragUpdate s e).order = s.order := by
  unfold dragUpdate
  by_cases h1 : e.c > 0
  · simp only [if_pos h1]
    cases h2 : s.order.head? with
    | none => simp only [h2]
    | some id =>
      simp only [h2]
      cases h3 : wlookup s.windows id with
      | none => simp only [h3]
      | some w =>
        simp only [h3]
        split <;> rfl
  · simp only [if_neg h1]

theorem dragUpdate_wkeys (s : OrbitalScheme) (e : Event) :
    wkeys (dragUpdate s e).windows = wkeys s.windows := by
  unfold dragUpdate
  by_cases h1 : e.c > 0
  · simp only [if_pos h1]
    cases h2 : s.order.head? with
    | none => simp only [h2]
    | some id =>
      simp only [h2]
      cases h3 : wlookup s.windows id with
      | none => simp only [h3]
      | some w =>
        simp only [h3]
        split
        · exact wkeys_wmodify s.windows id _
        · rfl
  · simp only [if_neg h1]

theorem scanWindows_wkeys (e : Event) (cx cy : Int) (ws : List (Nat × Window)) :
    ∀ (ids : List Nat) (i : Nat),
      wkeys (scanWindows e cx cy ws ids i).1 = wkeys ws := by
  intro ids
  induction ids with
  | nil => intro i; rfl
  | cons id rest ih =>
    intro i
    simp only [scanWindows]
    cases hl : wlookup ws id with
    | none => exact ih (i + 1)
    | some w =>
      by_cases hc : w.containsPt (i32cast e.a) (i32cast e.b) = true
      · simp only [hc, if_pos]
        exact wkeys_wmodify ws id _
      · simp only [Bool.not_eq_true] at hc
        simp only [hc, Bool.false_eq_true, if_false]
        by_cases ht : w.titleContains (i32cast e.a) (i32cast e.b) = true
        · simp only [ht, if_pos]
          by_cases hp : e.c > 0
          · simp only [if_pos hp]
            by_cases hx : w.exitContains (i32cast e.a) (i32cast e.b) = true
            · simp only [hx, if_pos]
              exact wkeys_wmodify ws id _
            · simp only [Bool.not_eq_true] at hx
              simp only [hx, Bool.false_eq_true, if_false]
          · simp only [if_neg hp]
        · simp only [Bool.not_eq_true] at ht
          simp only [ht, Bool.false_eq_true, if_false]
          exact ih (i + 1)

theorem applyScan_order (s : OrbitalScheme)
    (res : List (Nat × Window) × Option (Int × Int) × Nat) :
    (applyScan s res).order = s.order := by
  unfold applyScan; cases res.2.1 <;> rfl

theorem applyScan_windows (s : OrbitalScheme)
    (res : List (Nat × Window) × Option (Int × Int) × Nat) :
    (applyScan s res).windows = res.1 := by
  unfold applyScan; cases res.2.1 <;> rfl

theorem RegistryInv_open (s : OrbitalScheme) (path : String) (fl md : Nat)
    (hInv : RegistryInv s) (hfresh : usizeCast s.nextId ∉ s.order) :
    RegistryInv (s.open path fl md).1 := by
  obtain ⟨h1, h2, h3, h4⟩ := hInv
  have hkey : usizeCast s.nextId ∉ wkeys s.windows := fun hk => hfresh (h4 _ hk)
  rcases hP : openParse path with ⟨x0, y0, width, height, title⟩
  simp only [OrbitalScheme.open, hP, RegistryInv]
  refine ⟨List.nodup_cons.mpr ⟨hfresh, h1⟩, ?_, ?_, ?_⟩
  · rw [wkeys_winsert s.windows _ _ hkey, List.nodup_append]
    refine ⟨h2, List.nodup_singleton _, ?_⟩
    intro a ha hb
    simp only [List.mem_singleton] at hb
    subst hb
    exact hkey ha
  · intro k hk
    rw [wkeys_winsert s.windows _ _ hkey, List.mem_append]
    rcases List.mem_cons.mp hk with hk | hk
    · right; simp [hk]
    · left; exact h3 k hk
  · intro k hk
    rw [wkeys_winsert s.windows _ _ hkey, List.mem_append] at hk
    rcases hk with hk | hk
    · exact List.mem_cons_of_mem _ (h4 k hk)
    · simp only [List.mem_singleton] at hk
      subst hk
      exact List.mem_cons_self _ _

theorem RegistryInv_read (s : OrbitalScheme) (id bufLen : Nat)
    (hInv : RegistryInv s) : RegistryInv (s.read id bufLen).1 := by
  unfold OrbitalScheme.read
  cases hl : wlookup s.windows id with
  | none => simpa only [hl] using hInv
  | some w =>
    simp only [hl]
    exact RegistryInv_of_eq s _ hInv rfl (wkeys_wmodify s.windows id _)

theorem RegistryInv_write (s : OrbitalScheme) (id bufLen : Nat)
    (hInv : RegistryInv s) : RegistryInv (s.write id bufLen).1 := by
  unfold OrbitalScheme.write
  cases hl : wlookup s.windows id with
  | none => simpa only [hl] using hInv
  | some w =>
    simp only [hl]
    exact RegistryInv_of_eq s _ hInv rfl (wkeys_wmodify s.windows id _)

theorem RegistryInv_fpath (s : OrbitalScheme) (id bufLen : Nat)
    (hInv : RegistryInv s) : RegistryInv (s.fpath id bufLen).1 := by
  unfold OrbitalScheme.fpath
  cases hl : wlookup s.windows id with
  | none => simpa only [hl] using hInv
  | some w => simpa only [hl] using hInv

theorem RegistryInv_close (s : OrbitalScheme) (id : Nat)
    (hInv : RegistryInv s) : RegistryInv (s.close id).1 := by
  obtain ⟨h1, h2, h3, h4⟩ := hInv
  unfold OrbitalScheme.close
  cases hl : wlookup s.windows id with
  | none =>
    have hnk : id ∉ wkeys s.windows := wlookup_none_not_mem s.windows id hl
    simp only [hl, RegistryInv]
    refine ⟨h1.filter _, h2, ?_, ?_⟩
    · intro k hk
      exact h3 k (List.mem_of_mem_filter hk)
    · intro k hk
      rw [List.mem_filter]
      refine ⟨h4 k hk, ?_⟩
      simp only [ne_eq, decide_eq_true_eq]
      rintro rfl
      exact hnk hk
  | some w =>
    simp only [hl, RegistryInv]
    refine ⟨h1.filter _, ?_, ?_, ?_⟩
    · rw [wkeys_wremove]
      exact h2.filter _
    · intro k hk
      rw [wkeys_wremove, List.mem_filter]
      rw [List.mem_filter] at hk
      exact ⟨h3 k hk.1, hk.2⟩
    · intro k hk
      rw [wkeys_wremove, List.mem_filter] at hk
      rw [List.mem_filter]
      exact ⟨h4 k hk.1, hk.2⟩

theorem RegistryInv_event (s : OrbitalScheme) (e : Event)
    (hInv : RegistryInv s) : RegistryInv (s.event e).1 := by
  unfold OrbitalScheme.event
  by_cases hk : e.code = EVENT_KEY
  · simp only [if_pos hk]
    cases hd : s.order.head? with
    | none => simpa only [hd] using hInv
    | some id =>
      simp only [hd]
      exact RegistryInv_of_eq s _ hInv rfl (wkeys_wmodify s.windows id _)
  · simp only [if_neg hk]
    by_cases hm : e.code = EVENT_MOUSE
    · simp only [if_pos hm]
      have hInv1 : RegistryInv (mouseMoveUpdate s e) :=
        RegistryInv_of_eq s _ hInv (mouseMoveUpdate_order s e)
          (by rw [mouseMoveUpdate_windows])
      by_cases hdr : (mouseMoveUpdate s e).dragging = true
      · simp only [hdr, if_pos]
        exact RegistryInv_of_eq _ _ hInv1 (dragUpdate_order _ e) (dragUpdate_wkeys _ e)
      · simp only [Bool.not_eq_true] at hdr
        simp only [hdr, Bool.false_eq_true, if_false]
        have hInv2 : RegistryInv (applyScan (mouseMoveUpdate s e)
            (scanWindows e (mouseMoveUpdate s e).cursorX (mouseMoveUpdate s e).cursorY
              (mouseMoveUpdate s e).windows (mouseMoveUpdate s e).order 0)) :=
          RegistryInv_of_eq _ _ hInv1 (applyScan_order _ _)
            (by rw [applyScan_windows]
                exact scanWindows_wkeys e _ _ _ _ 0)
        by_cases hf : (scanWindows e (mouseMoveUpdate s e).cursorX
            (mouseMoveUpdate s e).cursorY (mouseMoveUpdate s e).windows
            (mouseMoveUpdate s e).order 0).2.2 > 0
        · simp only [if_pos hf]
          cases hg : (applyScan (mouseMoveUpdate s e)
              (scanWindows e (mouseMoveUpdate s e).cursorX (mouseMoveUpdate s e).cursorY
                (mouseMoveUpdate s e).windows (mouseMoveUpdate s e).order 0)).order.get?
              (scanWindows e (mouseMoveUpdate s e).cursorX (mouseMoveUpdate s e).cursorY
                (mouseMoveUpdate s e).windows (mouseMoveUpdate s e).order 0).2.2 with
          | none => simpa only [hg] using hInv2
          | some idf =>
            simp only [hg]
            exact RegistryInv_of_perm _ _ hInv2 (cons_eraseIdx_perm _ _ _ hg) rfl
        · simp only [if_neg hf]
          exact hInv2
    · simp only [if_neg hm]
      exact hInv

/-- Claim C8 counterexample: from a state satisfying the registry
invariant in which the id `open` will allocate (5) already names a live
window — possible only after the signed id counter wraps — `open` pushes
a second copy of 5 onto the z-order while the mapping keeps one entry, so
the invariant is not preserved by `open` on all invariant states. -/
theorem open_id_collision_ce :
    RegistryInv { OrbitalScheme.new 800 600 with
        nextId := 5, order := [5], windows := [(5, Window.new 0 0 10 10 "w")] } ∧
    ¬ RegistryInv ({ OrbitalScheme.new 800 600 with
        nextId := 5, order := [5],
        windows := [(5, Window.new 0 0 10 10 "w")] }.open "/0/0/5/5/t" 0 0).1 := by
  constructor
  · decide
  · decide

/-- Claim C8 (amended): read, write, fpath, close and input-event handling
each preserve the invariant that the z-order and the window mapping hold
exactly the same ids, each exactly once on both sides; open preserves it
too provided the id it allocates is not already in the z-order — which
holds on every execution until the signed id counter wraps around. -/
theorem ops_preserve_registry_inv (s : OrbitalScheme) (path : String)
    (fl md id bufLen : Nat) (e : Event) (hInv : RegistryInv s) :
    (usizeCast s.nextId ∉ s.order → RegistryInv (s.open path fl md).1) ∧
    RegistryInv (s.read id bufLen).1 ∧
    RegistryInv (s.write id bufLen).1 ∧
    RegistryInv (s.fpath id bufLen).1 ∧
    RegistryInv (s.close id).1 ∧
    RegistryInv (s.event e).1 :=
  ⟨fun hfresh => RegistryInv_open s path fl md hInv hfresh,
   RegistryInv_read s id bufLen hInv,
   RegistryInv_write s id bufLen hInv,
   RegistryInv_fpath s id bufLen hInv,
   RegistryInv_close s id hInv,
   RegistryInv_event s e hInv⟩

theorem ops_preserve_registry_inv_witness :
    RegistryInv ((OrbitalScheme.new 800 600).open "/-1/-1/10/10/a" 0 0).1 ∧
    RegistryInv ((OrbitalScheme.new 800 600).close 3).1 :=
  ⟨(ops_preserve_registry_inv (OrbitalScheme.new 800 600) "/-1/-1/10/10/a" 0 0 3 0
      { code := 0, a := 0, b := 0, c := 0 } (by decide)).1 (by decide),
   (ops_preserve_registry_inv (OrbitalScheme.new 800 600) "/-1/-1/10/10/a" 0 0 3 0
      { code := 0, a := 0, b := 0, c := 0 } (by decide)).2.2.2.2.1⟩

theorem scanWindows_focus (e : Event) (cx cy : Int) (ws : List (Nat × Window)) :
    ∀ (ids : List Nat) (base n : Nat) (id : Nat) (win : Window),
      ids.get? n = some id →
      wlookup ws id = some win →
      e.c > 0 →
      (win.containsPt (i32cast e.a) (i32cast e.b) = true ∨
        win.titleContains (i32cast e.a) (i32cast e.b) = true) →
      (∀ j idj winj, j < n → ids.get? j = some idj →
        wlookup ws idj = some winj →
        winj.containsPt (i32cast e.a) (i32cast e.b) = false ∧
        winj.titleContains (i32cast e.a) (i32cast e.b) = false) →
      (scanWindows e cx cy ws ids base).2.2 = base + n := by
  intro ids
  induction ids with
  | nil => intro base n id win hg _ _ _ _; simp at hg
  | cons a rest ih =>
    intro base n id win hg hl hc hhit hmiss
    cases n with
    | zero =>
      have ha : a = id := by simpa using hg
      subst ha
      simp only [scanWindows, hl, Nat.add_zero]
      by_cases hcc : win.containsPt (i32cast e.a) (i32cast e.b) = true
      · simp [hcc, hc]
      · have htt : win.titleContains (i32cast e.a) (i32cast e.b) = true := by
          rcases hhit with h | h
          · exact absurd h hcc
          · exact h
        simp only [Bool.not_eq_true] at hcc
        simp only [hcc, Bool.false_eq_true, if_false, htt, if_pos hc]
        by_cases hx : win.exitContains (i32cast e.a) (i32cast e.b) = true
        · simp [hx]
        · simp only [Bool.not_eq_true] at hx
          simp [hx]
    | succ m =>
      have hg' : rest.get? m = some id := by simpa using hg
      have hmiss' : ∀ j idj winj, j < m → rest.get? j = some idj →
          wlookup ws idj = some winj →
          winj.containsPt (i32cast e.a) (i32cast e.b) = false ∧
          winj.titleContains (i32cast e.a) (i32cast e.b) = false := by
        intro j idj winj hj hgj hlj
        exact hmiss (j + 1) idj winj (Nat.succ_lt_succ hj) (by simpa using hgj) hlj
      cases hla : wlookup ws a with
      | none =>
        simp only [scanWindows, hla]
        rw [ih (base + 1) m id win hg' hl hc hhit hmiss']
        omega
      | some wa =>
        have h0 := hmiss 0 a wa (Nat.succ_pos m) (by simp) hla
        simp only [scanWindows, hla, h0.1, h0.2, Bool.false_eq_true, if_false]
        rw [ih (base + 1) m id win hg' hl hc hhit hmiss']
        omega

theorem scanWindows_nopress (e : Event) (cx cy : Int) (ws : List (Nat × Window))
    (hc : ¬e.c > 0) :
    ∀ (ids : List Nat) (base : Nat), (scanWindows e cx cy ws ids base).2.2 = 0 := by
  intro ids
  induction ids with
  | nil => intro base; rfl
  | cons a rest ih =>
    intro base
    simp only [scanWindows]
    cases hla : wlookup ws a with
    | none => exact ih (base + 1)
    | some wa =>
      by_cases hcc : wa.containsPt (i32cast e.a) (i32cast e.b) = true
      · simp [hcc, hc]
      · simp only [Bool.not_eq_true] at hcc
        simp only [hcc, Bool.false_eq_true, if_false]
        by_cases ht : wa.titleContains (i32cast e.a) (i32cast e.b) = true
        · simp [ht, hc]
        · simp only [Bool.not_eq_true] at ht
          simp only [ht, Bool.false_eq_true, if_false]
          exact ih (base + 1)

/-- Claim C9 counterexample: window 1 (front, content covering the point)
overlaps window 2 (behind, title bar covering the point).  A pressed
mouse event at (10,50) lies in window 2's title bar and window 2 sits at
z-order index 1 > 0, yet the z-order stays [1, 2]: the scan stops at the
first window hit front-to-back, so the occluded window is not raised. -/
theorem press_occluded_title_ce :
    (let s : OrbitalScheme := { OrbitalScheme.new 800 600 with
        order := [1, 2],
        windows := [(1, Window.new 0 0 100 100 "A"), (2, Window.new 0 60 100 100 "B")] }
     let e : Event := { code := EVENT_MOUSE, a := 10, b := 50, c := 1 }
     Window.titleContains (Window.new 0 60 100 100 "B") 10 50 = true ∧
     (s.event e).1.order = [1, 2]) := by
  refine ⟨by decide, by decide⟩

/-- Claim C9 (amended): when not dragging, a pressed mouse event whose
position lies in the content area or title bar of the window at z-order
index i > 0 moves that window's id to the front — provided no window
earlier in the z-order also contains the position (the scan is
first-match front-to-back); a mouse event with no button held never
reorders the z-order. -/
theorem press_focus_first_hit (s : OrbitalScheme) (e : Event)
    (hm : e.code = EVENT_MOUSE) (hdrag : s.dragging = false) :
    (∀ i id win,
      0 < i →
      s.order.get? i = some id →
      wlookup s.windows id = some win →
      e.c > 0 →
      (win.containsPt (i32cast e.a) (i32cast e.b) = true ∨
        win.titleContains (i32cast e.a) (i32cast e.b) = true) →
      (∀ j idj winj, j < i → s.order.get? j = some idj →
        wlookup s.windows idj = some winj →
        winj.containsPt (i32cast e.a) (i32cast e.b) = false ∧
        winj.titleContains (i32cast e.a) (i32cast e.b) = false) →
      (s.event e).1.order = id :: s.order.eraseIdx i) ∧
    (¬e.c > 0 → (s.event e).1.order = s.order) := by
  have hkne : ¬e.code = EVENT_KEY := by rw [hm]; decide
  have hd1 : (mouseMoveUpdate s e).dragging = false := by
    rw [mouseMoveUpdate_dragging, hdrag]
  constructor
  · intro i id win hi hg hl hc hhit hmiss
    unfold OrbitalScheme.event
    simp only [if_neg hkne, if_pos hm, hd1, Bool.false_eq_true, if_false]
    rw [mouseMoveUpdate_windows, mouseMoveUpdate_order]
    have hfoc := scanWindows_focus e (mouseMoveUpdate s e).cursorX
      (mouseMoveUpdate s e).cursorY s.windows s.order 0 i id win hg hl hc hhit hmiss
    rw [Nat.zero_add] at hfoc
    simp only [hfoc, if_pos hi, applyScan_order, mouseMoveUpdate_order, hg]
  · intro hc
    unfold OrbitalScheme.event
    simp only [if_neg hkne, if_pos hm, hd1, Bool.false_eq_true, if_false]
    rw [mouseMoveUpdate_windows, mouseMoveUpdate_order]
    have hfoc := scanWindows_nopress e (mouseMoveUpdate s e).cursorX
      (mouseMoveUpdate s e).cursorY s.windows hc s.order 0
    simp only [hfoc, gt_iff_lt, lt_irrefl, if_false, applyScan_order,
      mouseMoveUpdate_order]

theorem press_focus_first_hit_witness :
    ({ OrbitalScheme.new 800 600 with
        order := [1, 2],
        windows := [(1, Window.new 200 200 10 10 "A"),
                    (2, Window.new 0 60 100 100 "B")] }.event
      { code := EVENT_MOUSE, a := 10, b := 50, c := 1 }).1.order = [2, 1] := by
  have h := (press_focus_first_hit
    { OrbitalScheme.new 800 600 with
        order := [1, 2],
        windows := [(1, Window.new 200 200 10 10 "A"),
                    (2, Window.new 0 60 100 100 "B")] }
    { code := EVENT_MOUSE, a := 10, b := 50, c := 1 } rfl rfl).1 1 2
    (Window.new 0 60 100 100 "B") (by decide) (by decide) (by decide) (by decide)
    (Or.inr (by decide))
    (by
      intro j idj winj hj hgj hlj
      have hj0 : j = 0 := by omega
      subst hj0
      have hidj : idj = 1 := by simpa using hgj.symm
      subst hidj
      have hwj : winj = Window.new 200 200 10 10 "A" := by
        simpa [wlookup] using hlj.symm
      subst hwj
      exact ⟨by decide, by decide⟩)
  rw [h]
  decide
